import Mathlib

/-!
Verification of the ingestion-and-batched-persistence pipeline of
`vrig_docker/sync.py` (stream consumer, batch accumulator, worker pool
router, persistence worker), via a shallow embedding of the Python code.

Conventions of the embedding:
* A Redis stream message body (a flat dict of byte strings) is a
  `List (String × String)` of field/value pairs; `dict.get(key, default)`
  becomes `getField`.
* A Python operation dict is the structure `Operation`; fields that the
  decode step sets only on some paths are `Option String` (a `none` field
  models an absent dict key).
* Python exceptions in the defensive numeric parsers are modelled by
  `Option` results (`none` = the call raised).
* Wall-clock times are integers (milliseconds); the configured defaults
  `BATCH_SIZE = 400` and `BATCH_TIMEOUT = 0.1 s` become `400` and `100` ms.
-/

namespace VrigSync

/-- A stream message body: flat field/value mapping (`sync.py` reads the
decoded dict `data`). -/
abbrev MsgData := List (String × String)

/-- Model of `data.get(key, default).decode()`: the field's value if present,
otherwise the given default (`sync.py:237-257`). -/
def getField (data : MsgData) (key : String) (dflt : String) : String :=
  match data.lookup key with
  | some v => v
  | none => dflt

/-- The normalized operation dict built by `consume_stream`
(`sync.py:240-270`).  `op`, `program_base64` and `msg_id` are always set;
the remaining keys are present only on some decode paths. -/
structure Operation where
  op : String
  program_base64 : String
  msg_id : String
  feedback_vector : Option String := none
  fuzzer_id : Option String := none
  execution_type_id : Option String := none
  turboshaft_ir : Option String := none
  coverage_total : Option String := none
  execution_flags : Option (List String) := none
deriving DecidableEq, Repr

/-- The fixed default flag list substituted when `execution_flags` is
absent or empty (`sync.py:261-270`). -/
def DEFAULT_EXECUTION_FLAGS : List String :=
  [ "is_debug=false",
    "v8_enable_i18n_support=false",
    "dcheck_always_on=true",
    "v8_static_library=true",
    "v8_enable_verify_heap=true",
    "v8_fuzzilli=true",
    "sanitizer_coverage_flags=trace-pc-guard",
    "target_cpu=x64" ]

/-- Decode of one stream message into an operation dict, mirroring the
per-message body of `consume_stream` (`sync.py:236-270`): dispatch on the
`op` field; `del` adds nothing, `update_feedback` adds the feedback
vector, and every other value of `op` (recognized or not) takes the
generic path that populates the execution-related fields with defaults. -/
def decodeMessage (msgId : String) (data : MsgData) : Operation :=
  let op := getField data "op" ""
  let base : Operation :=
    { op := op
      program_base64 := getField data "program_base64" ""
      msg_id := msgId }
  if op = "del" then
    base
  else if op = "update_feedback" then
    { base with feedback_vector := some (getField data "feedback_vector" "null") }
  else
    let flagsStr := getField data "execution_flags" ""
    { base with
      fuzzer_id := some (getField data "fuzzer_id" "0")
      execution_type_id := some (getField data "execution_type_id" "1")
      feedback_vector := some (getField data "feedback_vector" "null")
      turboshaft_ir := some (getField data "turboshaft_ir" "")
      coverage_total := some (getField data "coverage_total" "0")
      execution_flags :=
        some (if flagsStr ≠ "" then flagsStr.splitOn "," else DEFAULT_EXECUTION_FLAGS) }

/-- Events observable at the broker boundary of one consumer loop pass:
pushing an operation onto the shared queue (`add_operation`) and
acknowledging a message (`xack`). -/
inductive ConsumerEvent where
  | enqueueOp (op : Operation)
  | ackMsg (msgId : String)
deriving DecidableEq, Repr

/-- Whether an event is an acknowledgment. -/
def ConsumerEvent.isAck : ConsumerEvent → Bool
  | .ackMsg _ => true
  | _ => false

/-- Whether an event is an enqueue. -/
def ConsumerEvent.isEnqueue : ConsumerEvent → Bool
  | .enqueueOp _ => true
  | _ => false

/-- The event trace of the inner `for msg_id, data in entries` loop of
`consume_stream` (`sync.py:236-273`): for each message, decode it, enqueue
the operation, then ack the message. -/
def processEntries : List (String × MsgData) → List ConsumerEvent
  | [] => []
  | (msgId, data) :: rest =>
      ConsumerEvent.enqueueOp (decodeMessage msgId data) ::
      ConsumerEvent.ackMsg msgId ::
      processEntries rest

/-! ### Persistence worker: batch partitioning (`DatabaseWorker.process_batch`) -/

/-- The four operation groups of `process_batch` (`sync.py:61-64`). -/
inductive OpGroup where
  | programUpsert
  | executionUpsert
  | feedbackUpdate
  | deleteOp
deriving DecidableEq, Repr

/-- Python truthiness of `operation.get('execution_type_id')`: the key is
present and its value is a non-empty string (`sync.py:73`). -/
def truthyField : Option String → Bool
  | none => false
  | some s => !(s = "")

/-- The group `process_batch` files one operation under, mirroring the
`if/elif/else` chain of `sync.py:67-76`. -/
def classifyOp (o : Operation) : OpGroup :=
  if o.op = "del" then .deleteOp
  else if o.op = "update_feedback" then .feedbackUpdate
  else if truthyField o.execution_type_id then .executionUpsert
  else .programUpsert

/-- One pass of the partition loop of `process_batch` (`sync.py:66-76`):
append the operation to the list of its group.  The accumulator is
(program upserts, execution upserts, feedback updates, deletes). -/
def partitionStep
    (acc : List Operation × List Operation × List Operation × List Operation)
    (o : Operation) :
    List Operation × List Operation × List Operation × List Operation :=
  match classifyOp o with
  | .programUpsert => (acc.1 ++ [o], acc.2.1, acc.2.2.1, acc.2.2.2)
  | .executionUpsert => (acc.1, acc.2.1 ++ [o], acc.2.2.1, acc.2.2.2)
  | .feedbackUpdate => (acc.1, acc.2.1, acc.2.2.1 ++ [o], acc.2.2.2)
  | .deleteOp => (acc.1, acc.2.1, acc.2.2.1, acc.2.2.2 ++ [o])

/-- The partition loop of `process_batch` (`sync.py:66-76`): one pass over
the batch appending each operation to the list of its group.  Result:
(program upserts, execution upserts, feedback updates, deletes). -/
def partitionBatch (batch : List Operation) :
    List Operation × List Operation × List Operation × List Operation :=
  batch.foldl partitionStep ([], [], [], [])

/-- The operations of one batch falling in one group, in batch order. -/
def groupOfBatch (batch : List Operation) (g : OpGroup) : List Operation :=
  batch.filter (fun o => decide (classifyOp o = g))

/-- The sequence of bulk calls `process_batch` issues for one batch
(`sync.py:78-85`): each non-empty group, in the fixed order programs,
executions, feedback updates, deletes. -/
def processBatchCalls (batch : List Operation) : List (OpGroup × List Operation) :=
  (if (partitionBatch batch).1 ≠ [] then
    [(OpGroup.programUpsert, (partitionBatch batch).1)] else []) ++
  (if (partitionBatch batch).2.1 ≠ [] then
    [(OpGroup.executionUpsert, (partitionBatch batch).2.1)] else []) ++
  (if (partitionBatch batch).2.2.1 ≠ [] then
    [(OpGroup.feedbackUpdate, (partitionBatch batch).2.2.1)] else []) ++
  (if (partitionBatch batch).2.2.2 ≠ [] then
    [(OpGroup.deleteOp, (partitionBatch batch).2.2.2)] else [])

/-! ### Persistence worker: defensive numeric parsing -/

/-- ASCII whitespace stripped by Python `int()` / `float()`. -/
def isPySpace (c : Char) : Bool :=
  c = ' ' || c = '\t' || c = '\n' || c = '\r' || c.toNat = 11 || c.toNat = 12

/-- Strip leading and trailing whitespace from a character list. -/
def stripChars (cs : List Char) : List Char :=
  ((cs.dropWhile isPySpace).reverse.dropWhile isPySpace).reverse

/-- ASCII decimal digit test. -/
def isDigitChar (c : Char) : Bool :=
  48 ≤ c.toNat && c.toNat ≤ 57

/-- Value of a decimal digit string. -/
def digitsVal (cs : List Char) : Nat :=
  cs.foldl (fun a c => 10 * a + (c.toNat - 48)) 0

/-- A non-empty all-digit character list, or failure. -/
def parseDigits (cs : List Char) : Option Nat :=
  if !cs.isEmpty && cs.all isDigitChar then some (digitsVal cs) else none

/-- Split an optional leading sign off a character list; returns
(negative?, rest). -/
def splitSign : List Char → Bool × List Char
  | '-' :: rest => (true, rest)
  | '+' :: rest => (false, rest)
  | cs => (false, cs)

/-- Model of Python `int()` applied to a decimal string: optional
surrounding whitespace, optional sign, then decimal digits; anything else
raises (`none`).  (Digit-group underscores and non-ASCII digits are not
modelled; no claim depends on them.) -/
def pyIntOfString (s : String) : Option Int :=
  let t := splitSign (stripChars s.data)
  match parseDigits t.2 with
  | some n => some (if t.1 then -(n : Int) else (n : Int))
  | none => none

/-- Model of Python `float()` applied to a decimal string: optional
whitespace and sign, then `digits`, `digits.digits`, `digits.` or
`.digits`, as a rational; anything else raises (`none`).  (Exponents,
`inf` and `nan` are not modelled; no claim depends on them.) -/
def pyFloatOfString (s : String) : Option ℚ :=
  let t := splitSign (stripChars s.data)
  let signed : ℚ → Option ℚ := fun q => some (if t.1 then -q else q)
  match t.2.splitOn '.' with
  | [i] =>
      match parseDigits i with
      | some n => signed (n : ℚ)
      | none => none
  | [i, f] =>
      if i.isEmpty && f.isEmpty then none
      else
        match (if i.isEmpty then some 0 else parseDigits i),
              (if f.isEmpty then some 0 else parseDigits f) with
        | some a, some b => signed ((a : ℚ) + (b : ℚ) / ((10 : ℚ) ^ f.length))
        | _, _ => none
  | _ => none

/-- Model of `int(op.get('fuzzer_id', 0) or 0)` (`sync.py:94`): an absent key gives
the default `0`; an empty string is falsy and also gives `0`; any other
string goes to `int()` and may raise. -/
def parseFuzzerId : Option String → Option Int
  | none => some 0
  | some s => if s = "" then some 0 else pyIntOfString s

/-- Model of `int(op.get('execution_type_id', 1) or 1)` (`sync.py:106`). -/
def parseExecutionTypeId : Option String → Option Int
  | none => some 1
  | some s => if s = "" then some 1 else pyIntOfString s

/-- Model of `float(op.get('coverage_total', 0) or 0)` (`sync.py:109`). -/
def parseCoverageTotal : Option String → Option ℚ
  | none => some 0
  | some s => if s = "" then some 0 else pyFloatOfString s

/-- The row list built by `_batch_upsert_program` (`sync.py:91-95`);
`none` models the `ValueError` that aborts the whole batch when some
operation's `fuzzer_id` is non-empty but unparsable. -/
def batchUpsertProgramRows (ops : List Operation) : Option (List (String × Int)) :=
  ops.mapM (fun o => (parseFuzzerId o.fuzzer_id).map (fun fid => (o.program_base64, fid)))

/-- The row list built by `_batch_upsert_execution` (`sync.py:103-112`),
restricted to the numeric columns plus the key; `none` models a raised
`ValueError` aborting the batch. -/
def batchUpsertExecutionRows (ops : List Operation) :
    Option (List (String × Int × ℚ)) :=
  ops.mapM (fun o =>
    match parseExecutionTypeId o.execution_type_id, parseCoverageTotal o.coverage_total with
    | some etid, some cov => some (o.program_base64, etid, cov)
    | _, _ => none)

/-! ### Batch accumulator (`DatabaseBatchProcessor.process_operations`) -/

/-- Default `BATCH_SIZE` (`sync.py:12`). -/
def BATCH_SIZE : Nat := 400

/-- Default `BATCH_TIMEOUT` of 0.1 s, in milliseconds (`sync.py:13`). -/
def BATCH_TIMEOUT_MS : Int := 100

/-- Accumulator loop state: the in-progress batch and `last_batch_time`
(`sync.py:160-161`). -/
structure AccState where
  batch : List Operation
  lastBatchTime : Int
deriving DecidableEq, Repr

/-- The batch after the pop attempt of one iteration: the popped
operation, if any, is appended (`sync.py:165-172`). -/
def accInputBatch (s : AccState) (input : Option Operation) : List Operation :=
  match input with
  | some o => s.batch ++ [o]
  | none => s.batch

/-- One iteration of the flush loop (`sync.py:163-192`), given the popped
operation (or a pop timeout) and the wall-clock time of the iteration.
Returns the next state and the batch flushed to a worker, if any; on
flush the batch is cleared and `last_batch_time` is set to now. -/
def accStep (s : AccState) (input : Option Operation) (now : Int) :
    AccState × Option (List Operation) :=
  if (decide (BATCH_SIZE ≤ (accInputBatch s input).length) ||
        (!(accInputBatch s input).isEmpty &&
          decide (BATCH_TIMEOUT_MS ≤ now - s.lastBatchTime))) &&
      !(accInputBatch s input).isEmpty then
    (⟨[], now⟩, some (accInputBatch s input))
  else
    (⟨accInputBatch s input, s.lastBatchTime⟩, none)

/-- A run of the flush loop over a list of iterations, each given as
(popped operation or timeout, iteration time).  Returns the final state
and the flush events as (time, batch) in order. -/
def accRun (s : AccState) : List (Option Operation × Int) →
    AccState × List (Int × List Operation)
  | [] => (s, [])
  | (input, now) :: rest =>
      let step := accStep s input now
      let tail := accRun step.1 rest
      (tail.1,
       (match step.2 with
        | some b => [(now, b)]
        | none => []) ++ tail.2)

/-- One iteration of the flush loop with the worker call modelled
explicitly (`sync.py:184-190`): on flush, `worker.process_batch` runs
inside `try/except: pass`, so its result (success or raised exception,
an `Except`) is recorded in the submission event but the state update is
the same in both cases — the batch is cleared, never retried. -/
def accStepTry (worker : List Operation → Except String Unit)
    (s : AccState) (input : Option Operation) (now : Int) :
    AccState × List (List Operation × Except String Unit) :=
  match accStep s input now with
  | (s2, some b) => (s2, [(b, worker b)])
  | (s2, none) => (s2, [])

/-- A run of the flush loop with the worker call modelled explicitly;
collects the submissions (batch handed over, worker outcome) in order. -/
def accRunTry (worker : List Operation → Except String Unit) (s : AccState) :
    List (Option Operation × Int) →
    AccState × List (List Operation × Except String Unit)
  | [] => (s, [])
  | (input, now) :: rest =>
      let step := accStepTry worker s input now
      let tail := accRunTry worker step.1 rest
      (tail.1, step.2 ++ tail.2)

/-! ### Worker pool router (`DatabaseBatchProcessor.process_operations`) -/

/-- The `program_base64` of the first operation of a batch
(`batch[0].get('program_base64', '')`, `sync.py:181`); the router only
evaluates this on a non-empty batch. -/
def firstProgramKey : List Operation → String
  | [] => ""
  | o :: _ => o.program_base64

/-- Model of `hash(batch[0].get('program_base64', '')) % len(self.workers)`
(`sync.py:181`): the process's string hash, abstracted as an arbitrary
fixed function, taken modulo the pool size (Python `%` and Lean `Int.emod`
agree for a positive modulus). -/
def routeWorkerIndex (hash : String → Int) (numWorkers : Nat)
    (batch : List Operation) : Int :=
  hash (firstProgramKey batch) % (numWorkers : Int)

/-! ### Shutdown drain (`DatabaseBatchProcessor.close`) -/

/-- Events of `close` (`sync.py:197-216`): handing the drain batch to a
worker (`process_batch`), and closing a worker's connection pool. -/
inductive CloseEvent where
  | tryBatch (workerIdx : Nat) (batch : List Operation)
  | closePool (workerIdx : Nat)
deriving DecidableEq, Repr

/-- The `for worker in self.workers: try: process_batch; break except:
pass` loop of `close` (`sync.py:208-213`): workers (modelled by whether
`process_batch` succeeds on the drain batch) are tried in order, stopping
after the first success. -/
def drainAttempts (idx : Nat) (workers : List (List Operation → Bool))
    (batch : List Operation) : List CloseEvent :=
  match workers with
  | [] => []
  | w :: ws =>
      CloseEvent.tryBatch idx batch ::
        (if w batch then [] else drainAttempts (idx + 1) ws batch)

/-- The method `close` (`sync.py:197-216`): the queued-but-unflushed operations are
collected into one final batch; if it is non-empty the drain loop runs;
afterwards every worker's pool is closed. -/
def closeProcessor (workers : List (List Operation → Bool))
    (queued : List Operation) : List CloseEvent :=
  (if queued.isEmpty then [] else drainAttempts 0 workers queued) ++
    (List.range workers.length).map CloseEvent.closePool

/-! ### Concrete sample data for witnesses and counterexamples -/

/-- A well-formed `test_program` message body. -/
def sampleMsgData : MsgData :=
  [("op", "test_program"), ("program_base64", "AQID"), ("fuzzer_id", "1")]

/-- The operation decoded from `sampleMsgData`. -/
def sampleOp : Operation := decodeMessage "1-1" sampleMsgData

/-! ### Theorems -/

/-- Claim C1: In the consumer loop, every message is decoded, its operation
is enqueued to the shared queue, and the message is then acknowledged —
the enqueue event sits at trace position `2k` and the ack at `2k+1` for
the `k`-th message, so the ack always directly follows the enqueue.  The
ack count equals the message count (acknowledgment is unconditional), and
the trace contains no persistence event at all: the ack never waits for
the batch holding the operation to be persisted. -/
theorem ack_follows_enqueue_unconditionally :
    ∀ (entries : List (String × MsgData)),
      (processEntries entries).countP ConsumerEvent.isAck = entries.length ∧
      (processEntries entries).countP ConsumerEvent.isEnqueue = entries.length ∧
      ∀ (k : Nat) (m : String) (d : MsgData), entries[k]? = some (m, d) →
        (processEntries entries)[2 * k]? =
          some (ConsumerEvent.enqueueOp (decodeMessage m d)) ∧
        (processEntries entries)[2 * k + 1]? = some (ConsumerEvent.ackMsg m) := by
  intro entries
  induction entries with
  | nil =>
      refine ⟨rfl, rfl, ?_⟩
      intro k m d h
      simp at h
  | cons hd tl ih =>
      obtain ⟨m0, d0⟩ := hd
      refine ⟨?_, ?_, ?_⟩
      · simpa [processEntries, List.countP_cons, ConsumerEvent.isAck,
          ConsumerEvent.isEnqueue] using ih.1
      · simpa [processEntries, List.countP_cons, ConsumerEvent.isAck,
          ConsumerEvent.isEnqueue] using ih.2.1
      · intro k m d h
        match k with
        | 0 =>
            simp at h
            obtain ⟨hm, hd2⟩ := h
            subst hm
            subst hd2
            constructor
            · simp [processEntries]
            · simp [processEntries]
        | Nat.succ j =>
            have h2 : tl[j]? = some (m, d) := by simpa using h
            have hrec := ih.2.2 j m d h2
            have e1 : 2 * (j + 1) = 2 * j + 1 + 1 := by ring
            have e2 : 2 * (j + 1) + 1 = 2 * j + 1 + 1 + 1 := by ring
            constructor
            · rw [e1]
              simpa [processEntries] using hrec.1
            · rw [e2]
              simpa [processEntries] using hrec.2

/-- Witness for C1 at a concrete one-message entry list. -/
theorem ack_follows_enqueue_unconditionally_witness :
    (processEntries [("1-1", sampleMsgData)]).countP ConsumerEvent.isAck = 1 ∧
    (processEntries [("1-1", sampleMsgData)])[0]? =
      some (ConsumerEvent.enqueueOp (decodeMessage "1-1" sampleMsgData)) ∧
    (processEntries [("1-1", sampleMsgData)])[1]? =
      some (ConsumerEvent.ackMsg "1-1") := by
  have h := ack_follows_enqueue_unconditionally [("1-1", sampleMsgData)]
  have h0 := h.2.2 0 "1-1" sampleMsgData rfl
  exact ⟨h.1, h0.1, h0.2⟩

/-- Claim C4: On the generic decode path (op neither `del` nor
`update_feedback`), a missing-or-empty `execution_flags` field yields
exactly the fixed 8-element default flag list (which is non-empty), and a
present non-empty field yields exactly the comma-split of its value. -/
theorem execution_flags_default_exact :
    ∀ (msgId : String) (data : MsgData),
      getField data "op" "" ≠ "del" →
      getField data "op" "" ≠ "update_feedback" →
      (DEFAULT_EXECUTION_FLAGS.length = 8 ∧ DEFAULT_EXECUTION_FLAGS ≠ []) ∧
      (getField data "execution_flags" "" = "" →
        (decodeMessage msgId data).execution_flags = some DEFAULT_EXECUTION_FLAGS) ∧
      (getField data "execution_flags" "" ≠ "" →
        (decodeMessage msgId data).execution_flags =
          some ((getField data "execution_flags" "").splitOn ",")) := by
  intro msgId data h1 h2
  refine ⟨⟨rfl, by simp [DEFAULT_EXECUTION_FLAGS]⟩, ?_, ?_⟩
  · intro hf
    simp [decodeMessage, h1, h2, hf]
  · intro hf
    simp [decodeMessage, h1, h2, hf]

/-- Witness for C4: `sampleMsgData` has no `execution_flags` field, and
its decode carries the full default flag list. -/
theorem execution_flags_default_exact_witness :
    (decodeMessage "1-1" sampleMsgData).execution_flags =
      some DEFAULT_EXECUTION_FLAGS ∧
    DEFAULT_EXECUTION_FLAGS.length = 8 := by
  have h := execution_flags_default_exact "1-1" sampleMsgData
    (by decide) (by decide)
  exact ⟨h.2.1 (by decide), h.1.1⟩

/-- A message body with an unrecognized `op` value. -/
def bogusMsgData : MsgData := [("op", "bogus"), ("program_base64", "AQID")]

/-- Claim C6, counterexample: A message whose `op` is outside the recognized
set is *not* dropped: processing the single message with `op = "bogus"`
enqueues exactly one operation (the claim asserts none is enqueued). -/
theorem unrecognized_op_enqueued_counterexample :
    (decodeMessage "9-9" bogusMsgData).op = "bogus" ∧
    (processEntries [("9-9", bogusMsgData)]).countP ConsumerEvent.isEnqueue = 1 ∧
    processEntries [("9-9", bogusMsgData)] =
      [ConsumerEvent.enqueueOp (decodeMessage "9-9" bogusMsgData),
       ConsumerEvent.ackMsg "9-9"] := by
  refine ⟨by decide, ?_, rfl⟩
  rfl

/-- Claim C6, amended: No message is ever dropped by the consumer: every
message enqueues exactly one operation, and a message whose `op` is
missing or unrecognized (anything other than `del` / `update_feedback`)
is decoded via the generic insert path, its execution-related fields
populated from the message with defaults. -/
theorem unrecognized_op_generic_path :
    ∀ (msgId : String) (data : MsgData),
      (processEntries [(msgId, data)]).countP ConsumerEvent.isEnqueue = 1 ∧
      (getField data "op" "" ≠ "del" →
       getField data "op" "" ≠ "update_feedback" →
        (decodeMessage msgId data).fuzzer_id =
          some (getField data "fuzzer_id" "0") ∧
        (decodeMessage msgId data).execution_type_id =
          some (getField data "execution_type_id" "1") ∧
        (decodeMessage msgId data).coverage_total =
          some (getField data "coverage_total" "0")) := by
  intro msgId data
  constructor
  · rfl
  · intro h1 h2
    refine ⟨?_, ?_, ?_⟩ <;> simp [decodeMessage, h1, h2]

/-- Witness for C6 (amended) at the `op = "bogus"` message. -/
theorem unrecognized_op_generic_path_witness :
    (processEntries [("9-8", bogusMsgData)]).countP ConsumerEvent.isEnqueue = 1 ∧
    (decodeMessage "9-8" bogusMsgData).execution_type_id = some "1" := by
  have h := unrecognized_op_generic_path "9-8" bogusMsgData
  refine ⟨h.1, ?_⟩
  exact ((h.2 (by decide) (by decide)).2.1).trans (by decide)

/-- A `test_program` message carrying an explicitly empty
`execution_type_id` field. -/
def emptyEtidMsgData : MsgData :=
  [("op", "test_program"), ("program_base64", "AQID"), ("execution_type_id", "")]

/-- Claim C10, counterexample: A stream-decoded operation *can* reach the
program/fuzzer-upsert group: a `test_program` message with an explicitly
empty `execution_type_id` field decodes to an operation whose
`execution_type_id` is the empty (falsy) string, which the worker's
partition step files under the program-upsert group. -/
theorem program_group_reachable_counterexample :
    (decodeMessage "2-2" emptyEtidMsgData).op = "test_program" ∧
    (decodeMessage "2-2" emptyEtidMsgData).execution_type_id = some "" ∧
    classifyOp (decodeMessage "2-2" emptyEtidMsgData) = OpGroup.programUpsert := by
  refine ⟨by decide, by decide, by decide⟩

/-- Claim C10, amended: Every stream-decoded operation whose `op` is neither
`del` nor `update_feedback` carries an `execution_type_id` field equal to
the message's field value with default `"1"`; when the message omits the
field the value is the non-empty `"1"`, and the partition step places the
operation in the execution-upsert group exactly when that value is
non-empty — only a message with an explicitly empty `execution_type_id`
value reaches the program/fuzzer-upsert group. -/
theorem stream_ops_execution_group :
    ∀ (msgId : String) (data : MsgData),
      getField data "op" "" ≠ "del" →
      getField data "op" "" ≠ "update_feedback" →
      (decodeMessage msgId data).execution_type_id =
        some (getField data "execution_type_id" "1") ∧
      (data.lookup "execution_type_id" = none →
        (decodeMessage msgId data).execution_type_id = some "1") ∧
      (getField data "execution_type_id" "1" ≠ "" →
        classifyOp (decodeMessage msgId data) = OpGroup.executionUpsert) ∧
      (getField data "execution_type_id" "1" = "" →
        classifyOp (decodeMessage msgId data) = OpGroup.programUpsert) := by
  intro msgId data h1 h2
  have h0 : (decodeMessage msgId data).execution_type_id =
      some (getField data "execution_type_id" "1") := by
    simp [decodeMessage, h1, h2]
  refine ⟨h0, ?_, ?_, ?_⟩
  · intro hnone
    rw [h0]
    simp [getField, hnone]
  · intro hne
    simp [classifyOp, decodeMessage, h1, h2, truthyField, hne]
  · intro heq
    simp [classifyOp, decodeMessage, h1, h2, truthyField, heq]

/-- Witness for C10 (amended): `sampleMsgData` omits `execution_type_id`,
so its decode defaults to `"1"` and lands in the execution-upsert group. -/
theorem stream_ops_execution_group_witness :
    (decodeMessage "1-1" sampleMsgData).execution_type_id = some "1" ∧
    classifyOp (decodeMessage "1-1" sampleMsgData) = OpGroup.executionUpsert := by
  have h := stream_ops_execution_group "1-1" sampleMsgData (by decide) (by decide)
  exact ⟨h.2.1 (by decide), h.2.2.1 (by decide)⟩

/-- An operation decoded from a message carrying an unparsable
`fuzzer_id`. -/
def badFuzzerOp : Operation :=
  decodeMessage "3-3"
    [("op", "test_program"), ("program_base64", "AQID"), ("fuzzer_id", "abc")]

/-- Claim C7, counterexample: Numeric parsing in the worker is *not* total:
`int(op.get('fuzzer_id', 0) or 0)` applied to the non-empty unparsable
value `"abc"` raises (modelled `none`) instead of yielding `0`, and the
raise aborts the whole program-upsert row build for the batch. -/
theorem unparsable_fuzzer_id_raises_counterexample :
    parseFuzzerId (some "abc") = none ∧
    parseFuzzerId (some "abc") ≠ some 0 ∧
    badFuzzerOp.fuzzer_id = some "abc" ∧
    batchUpsertProgramRows [badFuzzerOp] = none := by
  refine ⟨by decide, by decide, by decide, by decide⟩

/-- Claim C7, amended: The defensive fallback covers only absent or empty
(falsy) values: those yield the defaults (`0` for `fuzzer_id` and
`coverage_total`, `1` for `execution_type_id`); any non-empty value is
handed to `int()` / `float()` unprotected, so an unparsable non-empty
value raises and loses the batch. -/
theorem numeric_parse_defaults :
    (parseFuzzerId none = some 0 ∧ parseFuzzerId (some "") = some 0 ∧
     parseExecutionTypeId none = some 1 ∧ parseExecutionTypeId (some "") = some 1 ∧
     parseCoverageTotal none = some 0 ∧ parseCoverageTotal (some "") = some 0) ∧
    (∀ s : String, s ≠ "" →
      parseFuzzerId (some s) = pyIntOfString s ∧
      parseExecutionTypeId (some s) = pyIntOfString s ∧
      parseCoverageTotal (some s) = pyFloatOfString s) := by
  refine ⟨⟨rfl, rfl, rfl, rfl, rfl, rfl⟩, ?_⟩
  intro s hs
  refine ⟨?_, ?_, ?_⟩ <;>
    simp [parseFuzzerId, parseExecutionTypeId, parseCoverageTotal, hs]

/-- Witness for C7 (amended): the defaults hold, and at the concrete
non-empty value `"abc"` the parser is exactly (unprotected) `int()`. -/
theorem numeric_parse_defaults_witness :
    parseFuzzerId none = some 0 ∧
    parseCoverageTotal (some "") = some 0 ∧
    parseFuzzerId (some "abc") = pyIntOfString "abc" := by
  have h := numeric_parse_defaults
  exact ⟨h.1.1, h.1.2.2.2.2.2, (h.2 "abc" (by decide)).1⟩

/-- A `del` operation for the same program key as `sampleOp`. -/
def sampleDelOp : Operation :=
  decodeMessage "1-2" [("op", "del"), ("program_base64", "AQID")]

/-- Claim C8: Routing is deterministic: for any fixed (process-local) string
hash and fixed pool size, two batches whose first operation carries the
same `program_base64` key are routed to the same worker index, and that
index is the hash of the key taken modulo the pool size. -/
theorem routing_deterministic :
    ∀ (hash : String → Int) (numWorkers : Nat) (b1 b2 : List Operation),
      firstProgramKey b1 = firstProgramKey b2 →
      routeWorkerIndex hash numWorkers b1 = routeWorkerIndex hash numWorkers b2 ∧
      routeWorkerIndex hash numWorkers b1 =
        hash (firstProgramKey b1) % (numWorkers : Int) := by
  intro hash n b1 b2 hkey
  exact ⟨by simp [routeWorkerIndex, hkey], rfl⟩

/-- Witness for C8 at a length-based hash, pool size 4, and two distinct
batches sharing the first key `"AQID"`. -/
theorem routing_deterministic_witness :
    firstProgramKey [sampleOp] = firstProgramKey [sampleDelOp, sampleOp] ∧
    routeWorkerIndex (fun s => (s.length : Int)) 4 [sampleOp] =
      routeWorkerIndex (fun s => (s.length : Int)) 4 [sampleDelOp, sampleOp] := by
  have h := routing_deterministic (fun s => (s.length : Int)) 4
    [sampleOp] [sampleDelOp, sampleOp] (by decide)
  exact ⟨by decide, h.1⟩

/-- Helper: one accumulator iteration with the worker call modelled is
the plain iteration with the worker outcome attached: same next state,
and a submission exactly when a flush happens. -/
theorem accStepTry_spec (worker : List Operation → Except String Unit)
    (s : AccState) (input : Option Operation) (now : Int) :
    (accStepTry worker s input now).1 = (accStep s input now).1 ∧
    (accStepTry worker s input now).2.map Prod.fst =
      (accStep s input now).2.toList := by
  rcases h : accStep s input now with ⟨s2, out⟩
  cases out <;> simp [accStepTry, h]

/-- Helper: a run with the worker call modelled reaches the same final
state as the plain run, and its submissions are exactly the plain run's
flushed batches, in order. -/
theorem accRunTry_spec (worker : List Operation → Except String Unit) :
    ∀ (steps : List (Option Operation × Int)) (s : AccState),
      (accRunTry worker s steps).1 = (accRun s steps).1 ∧
      (accRunTry worker s steps).2.map Prod.fst =
        ((accRun s steps).2.map Prod.snd) := by
  intro steps
  induction steps with
  | nil => intro s; exact ⟨rfl, rfl⟩
  | cons hd tl ih =>
      intro s
      obtain ⟨input, now⟩ := hd
      rcases h : accStep s input now with ⟨s2, out⟩
      have hstep := accStepTry_spec worker s input now
      rw [h] at hstep
      cases out with
      | none =>
          simp only [accRun, accRunTry, h]
          have h2 : accStepTry worker s input now = (s2, []) := by
            rcases h3 : accStepTry worker s input now with ⟨sx, subs⟩
            rw [h3] at hstep
            simp at hstep
            simp [hstep.1, hstep.2]
          simp [h2, ih s2]
      | some b =>
          simp only [accRun, accRunTry, h]
          have h2 : accStepTry worker s input now = (s2, [(b, worker b)]) := by
            simp [accStepTry, h]
          simp [h2, ih s2]

/-- Claim C9: A worker failure during a flush is swallowed by the
accumulator: the next state never depends on the worker's outcome (the
state after a failed flush equals the state after a successful one), on
any flush the in-progress batch is cleared, a run submits each flushed
batch exactly once — the submission sequence equals the flush sequence of
the outcome-agnostic loop, so a failed batch is never re-submitted — and
the run continues through all remaining iterations regardless of
failures, ending in a state independent of the worker. -/
theorem flush_failure_swallowed :
    ∀ (workerA workerB : List Operation → Except String Unit)
      (s : AccState) (input : Option Operation) (now : Int)
      (steps : List (Option Operation × Int)),
      (accStepTry workerA s input now).1 = (accStepTry workerB s input now).1 ∧
      ((accStepTry workerA s input now).1.batch = [] ∨
        (accStepTry workerA s input now).2 = []) ∧
      (accRunTry workerA s steps).1 = (accRunTry workerB s steps).1 ∧
      (accRunTry workerA s steps).2.map Prod.fst =
        (accRunTry workerB s steps).2.map Prod.fst ∧
      (accRunTry workerA s steps).2.map Prod.fst =
        (accRun s steps).2.map Prod.snd := by
  intro wA wB s input now steps
  have hA := accStepTry_spec wA s input now
  have hB := accStepTry_spec wB s input now
  have hrA := accRunTry_spec wA steps s
  have hrB := accRunTry_spec wB steps s
  refine ⟨hA.1.trans hB.1.symm, ?_, hrA.1.trans hrB.1.symm,
    hrA.2.trans hrB.2.symm, hrA.2⟩
  rcases h : accStep s input now with ⟨s2, out⟩
  cases out with
  | none => right; simp [accStepTry, h]
  | some b =>
      left
      have : (accStepTry wA s input now).1 = s2 := by
        simp [accStepTry, h]
      rw [this]
      have hb : s2.batch = [] := by
        unfold accStep at h
        by_cases hc :
            ((decide (BATCH_SIZE ≤ (accInputBatch s input).length) ||
              (!(accInputBatch s input).isEmpty &&
                decide (BATCH_TIMEOUT_MS ≤ now - s.lastBatchTime))) &&
              !(accInputBatch s input).isEmpty) = true
        · rw [if_pos hc] at h
          cases h
          rfl
        · rw [if_neg hc] at h
          cases h
      exact hb

/-- Claim C2, counterexample: The age-based flush measures elapsed time
from `last_batch_time` — the previous flush (or loop start) — not from
the first item's arrival.  Run the loop from time 0 with two empty
iterations and a single item popped at time 500: the item is flushed in
the very same iteration it arrived (batch of size 1 < 400, elapsed time
since the item arrived 500 − 500 = 0 < 100 ms), refuting both the stated
flush condition and the claim that a lone item is flushed no earlier than
the max batch age after its arrival. -/
theorem flush_before_item_age_counterexample :
    (accRun ⟨[], 0⟩ [(none, 110), (none, 220), (some sampleOp, 500)]).2 =
      [(500, [sampleOp])] ∧
    1 < BATCH_SIZE ∧
    (500 : Int) - 500 < BATCH_TIMEOUT_MS := by
  refine ⟨rfl, by decide, by decide⟩

/-- Claim C2, amended: A flush occurs exactly when the batch after the
current pop attempt has reached the maximum batch size, or is non-empty
and the elapsed time since the *previous flush (or loop start)* is at
least the maximum batch age; the flushed batch is the whole in-progress
batch.  Consequently a single item that arrives when the age budget since
the last flush is already exhausted flushes immediately, while a single
item arriving inside the budget is retained and is flushed as a 1-item
batch at an iteration whose time has exhausted the budget measured from
the last flush, not from the item's arrival. -/
theorem flush_condition_last_flush_age :
    ∀ (s : AccState) (input : Option Operation) (now : Int),
      ((accStep s input now).2 ≠ none ↔
        (BATCH_SIZE ≤ (accInputBatch s input).length ∨
          (accInputBatch s input ≠ [] ∧
            BATCH_TIMEOUT_MS ≤ now - s.lastBatchTime))) ∧
      ((accStep s input now).2 = none ∨
        (accStep s input now).2 = some (accInputBatch s input)) ∧
      (∀ (t0 : Int) (o : Operation), BATCH_TIMEOUT_MS ≤ now - t0 →
        accStep ⟨[], t0⟩ (some o) now = (⟨[], now⟩, some [o])) ∧
      (∀ (t0 : Int) (o : Operation), now - t0 < BATCH_TIMEOUT_MS →
        accStep ⟨[], t0⟩ (some o) now = (⟨[o], t0⟩, none)) ∧
      (∀ (t0 t2 : Int) (o : Operation), BATCH_TIMEOUT_MS ≤ t2 - t0 →
        accStep ⟨[o], t0⟩ none t2 = (⟨[], t2⟩, some [o])) := by
  intro s input now
  refine ⟨?_, ?_, ?_, ?_, ?_⟩
  · unfold accStep
    by_cases hsz : BATCH_SIZE ≤ (accInputBatch s input).length
    · have hne : (accInputBatch s input).isEmpty = false := by
        rcases hb : accInputBatch s input with _ | ⟨a, l⟩
        · rw [hb] at hsz
          simp [BATCH_SIZE] at hsz
        · rfl
      simp [hsz, hne]
    · by_cases hemp : accInputBatch s input = []
      · simp [hsz, hemp, BATCH_SIZE]
      · have hne : (accInputBatch s input).isEmpty = false := by
          simpa [List.isEmpty_iff] using hemp
        by_cases ht : BATCH_TIMEOUT_MS ≤ now - s.lastBatchTime
        · simp [hsz, hne, ht, hemp]
        · simp [hsz, hne, ht, hemp]
  · unfold accStep
    split
    · exact Or.inr rfl
    · exact Or.inl rfl
  · intro t0 o ht
    simp [accStep, accInputBatch, ht, BATCH_SIZE]
  · intro t0 o ht
    simp [accStep, accInputBatch, not_le.mpr ht, BATCH_SIZE]
  · intro t0 t2 o ht
    simp [accStep, accInputBatch, ht, BATCH_SIZE]

/-- Witness for C2 (amended): concrete instances of the characterization
and of the immediate / deferred 1-item flushes. -/
theorem flush_condition_last_flush_age_witness :
    ((accStep ⟨[], 0⟩ (some sampleOp) 500).2 ≠ none ↔
      (BATCH_SIZE ≤ (accInputBatch ⟨[], 0⟩ (some sampleOp)).length ∨
        (accInputBatch ⟨[], 0⟩ (some sampleOp) ≠ [] ∧
          BATCH_TIMEOUT_MS ≤ (500 : Int) - 0))) ∧
    accStep ⟨[], 0⟩ (some sampleOp) 500 = (⟨[], 500⟩, some [sampleOp]) ∧
    accStep ⟨[], 0⟩ (some sampleOp) 50 = (⟨[sampleOp], 0⟩, none) ∧
    accStep ⟨[sampleOp], 0⟩ none 120 = (⟨[], 120⟩, some [sampleOp]) := by
  have h := flush_condition_last_flush_age ⟨[], 0⟩ (some sampleOp) 500
  have h50 := flush_condition_last_flush_age ⟨[], 0⟩ (some sampleOp) 50
  exact ⟨h.1,
    h.2.2.1 0 sampleOp (by decide),
    h50.2.2.2.1 0 sampleOp (by decide),
    h.2.2.2.2 0 120 sampleOp (by decide)⟩

/-- Claim C5, counterexample: A drain failure does *not* abandon the drain:
with two workers where the first fails on the drain batch and the second
succeeds, `close` hands the batch to worker 0, then — the exception having
been caught — hands the same batch to worker 1, and afterwards closes both
pools.  The claim asserts no further worker is tried after a failure. -/
theorem drain_tries_next_worker_counterexample :
    closeProcessor [fun _ => false, fun _ => true] [sampleOp] =
      [CloseEvent.tryBatch 0 [sampleOp], CloseEvent.tryBatch 1 [sampleOp],
       CloseEvent.closePool 0, CloseEvent.closePool 1] ∧
    CloseEvent.tryBatch 1 [sampleOp] ∈
      closeProcessor [fun _ => false, fun _ => true] [sampleOp] := by
  have h : closeProcessor [fun _ => false, fun _ => true] [sampleOp] =
      [CloseEvent.tryBatch 0 [sampleOp], CloseEvent.tryBatch 1 [sampleOp],
       CloseEvent.closePool 0, CloseEvent.closePool 1] := rfl
  exact ⟨h, by rw [h]; simp⟩

/-- Helper: the drain loop emits only `tryBatch` events. -/
theorem closePool_not_mem_drainAttempts :
    ∀ (ws : List (List Operation → Bool)) (n i : Nat) (q : List Operation),
      CloseEvent.closePool i ∉ drainAttempts n ws q := by
  intro ws
  induction ws with
  | nil => intro n i q; simp [drainAttempts]
  | cons w rest ih =>
      intro n i q
      by_cases hw : w q
      · simp [drainAttempts, hw]
      · simp [drainAttempts, hw]
        exact ih (n + 1) i q

/-- Helper: a `tryBatch` event for index `i` appears in the drain loop
started at index `n` exactly when `i` lies in the worker range and every
earlier worker fails on the drain batch. -/
theorem mem_drainAttempts :
    ∀ (ws : List (List Operation → Bool)) (n i : Nat) (q b : List Operation),
      CloseEvent.tryBatch i b ∈ drainAttempts n ws q ↔
        (b = q ∧ ∃ j, i = n + j ∧ j < ws.length ∧
          ((ws.take j).all (fun w => !(w q))) = true) := by
  intro ws
  induction ws with
  | nil => intro n i q b; simp [drainAttempts]
  | cons w rest ih =>
      intro n i q b
      by_cases hw : w q
      · have hd : drainAttempts n (w :: rest) q = [CloseEvent.tryBatch n q] := by
          simp [drainAttempts, hw]
        rw [hd]
        constructor
        · intro hmem
          have he : CloseEvent.tryBatch i b = CloseEvent.tryBatch n q := by
            simpa using hmem
          have hie : i = n ∧ b = q := by
            constructor <;> injection he
          exact ⟨hie.2, 0, by omega, by simp, by simp⟩
        · rintro ⟨hb, j, hij, hjlt, hall⟩
          cases j with
          | zero =>
              subst hb
              simp [hij]
          | succ k =>
              rw [List.take_succ_cons, List.all_cons] at hall
              simp [hw] at hall
      · have hd : drainAttempts n (w :: rest) q =
            CloseEvent.tryBatch n q :: drainAttempts (n + 1) rest q := by
          simp [drainAttempts, hw]
        rw [hd, List.mem_cons]
        constructor
        · intro hmem
          rcases hmem with he | hmem2
          · have hie : i = n ∧ b = q := by
              constructor <;> injection he
            exact ⟨hie.2, 0, by omega, by simp, by simp⟩
          · obtain ⟨hb, k, hik, hklt, hall⟩ := (ih (n + 1) i q b).mp hmem2
            refine ⟨hb, k + 1, by omega, by simpa using hklt, ?_⟩
            rw [List.take_succ_cons, List.all_cons]
            simp [hw, hall]
        · rintro ⟨hb, j, hij, hjlt, hall⟩
          cases j with
          | zero =>
              subst hb
              left
              simp [hij]
          | succ k =>
              right
              apply (ih (n + 1) i q b).mpr
              rw [List.take_succ_cons, List.all_cons] at hall
              rw [List.length_cons] at hjlt
              refine ⟨hb, k, by omega, by omega, ?_⟩
              simpa [hw] using hall

/-- Claim C5, amended: During shutdown drain, the still-queued items are
collected into one final batch; workers are tried in order, and a failure
on one worker is caught and the *next* worker is tried with the same
batch, until a worker succeeds or all workers have been tried; afterwards
every worker's connection pool is closed.  Precisely: worker `i` receives
the drain batch exactly when the batch is non-empty, `i` is a valid
worker index, and all earlier workers failed on the batch; and pool `i`
is closed exactly when `i` is a valid worker index. -/
theorem shutdown_drain_tries_workers_in_order :
    ∀ (ws : List (List Operation → Bool)) (q : List Operation) (i : Nat),
      (CloseEvent.closePool i ∈ closeProcessor ws q ↔ i < ws.length) ∧
      (q ≠ [] →
        (CloseEvent.tryBatch i q ∈ closeProcessor ws q ↔
          (i < ws.length ∧ ((ws.take i).all (fun w => !(w q))) = true))) := by
  intro ws q i
  constructor
  · unfold closeProcessor
    rw [List.mem_append]
    constructor
    · rintro (h1 | h2)
      · exfalso
        by_cases hq : q.isEmpty
        · rw [if_pos hq] at h1
          simp at h1
        · rw [if_neg hq] at h1
          exact closePool_not_mem_drainAttempts ws 0 i q h1
      · simp only [List.mem_map, List.mem_range] at h2
        obtain ⟨a, ha, he⟩ := h2
        have : a = i := by injection he
        omega
    · intro hlt
      right
      simp only [List.mem_map, List.mem_range]
      exact ⟨i, hlt, rfl⟩
  · intro hq
    have hqe : ¬(q.isEmpty = true) := by
      simpa [List.isEmpty_iff] using hq
    unfold closeProcessor
    rw [if_neg hqe, List.mem_append]
    constructor
    · rintro (h1 | h2)
      · obtain ⟨_, j, hij, hjlt, hall⟩ := (mem_drainAttempts ws 0 i q q).mp h1
        have hji : j = i := by omega
        subst hji
        exact ⟨hjlt, hall⟩
      · exfalso
        simp only [List.mem_map, List.mem_range] at h2
        obtain ⟨a, _, he⟩ := h2
        exact CloseEvent.noConfusion he
    · rintro ⟨hlt, hall⟩
      left
      exact (mem_drainAttempts ws 0 i q q).mpr ⟨rfl, i, by omega, hlt, hall⟩

/-- Witness for C5 (amended): with a failing first worker and a
succeeding second worker, worker 1 receives the non-empty drain batch and
pool 1 is closed. -/
theorem shutdown_drain_tries_workers_in_order_witness :
    ([sampleOp] : List Operation) ≠ [] ∧
    CloseEvent.tryBatch 1 [sampleOp] ∈
      closeProcessor [fun _ => false, fun _ => true] [sampleOp] ∧
    CloseEvent.closePool 1 ∈
      closeProcessor [fun _ => false, fun _ => true] [sampleOp] := by
  have h := shutdown_drain_tries_workers_in_order
    [fun _ => false, fun _ => true] [sampleOp] 1
  refine ⟨by simp, ?_, h.1.mpr (by simp)⟩
  exact (h.2 (by simp)).mpr ⟨by simp, rfl⟩

/-- Helper: the partition loop with arbitrary starting accumulators
appends each group's filter of the batch to its accumulator. -/
theorem partitionBatch_go :
    ∀ (batch : List Operation) (p e u d : List Operation),
      batch.foldl partitionStep (p, e, u, d) =
        (p ++ groupOfBatch batch OpGroup.programUpsert,
         e ++ groupOfBatch batch OpGroup.executionUpsert,
         u ++ groupOfBatch batch OpGroup.feedbackUpdate,
         d ++ groupOfBatch batch OpGroup.deleteOp) := by
  intro batch
  induction batch with
  | nil => intro p e u d; simp [groupOfBatch]
  | cons o rest ih =>
      intro p e u d
      cases hc : classifyOp o <;>
        simp [partitionStep, hc, groupOfBatch, List.filter_cons, ih,
          List.append_assoc]

/-- Helper: the partition loop computes exactly the four group filters. -/
theorem partitionBatch_eq_groups (batch : List Operation) :
    partitionBatch batch =
      (groupOfBatch batch OpGroup.programUpsert,
       groupOfBatch batch OpGroup.executionUpsert,
       groupOfBatch batch OpGroup.feedbackUpdate,
       groupOfBatch batch OpGroup.deleteOp) := by
  simpa [partitionBatch] using partitionBatch_go batch [] [] [] []

/-- Helper: the four groups together are a permutation of the batch. -/
theorem groups_perm :
    ∀ (batch : List Operation),
      (groupOfBatch batch OpGroup.programUpsert ++
        groupOfBatch batch OpGroup.executionUpsert ++
        groupOfBatch batch OpGroup.feedbackUpdate ++
        groupOfBatch batch OpGroup.deleteOp).Perm batch := by
  intro batch
  induction batch with
  | nil => simp [groupOfBatch]
  | cons o rest ih =>
      cases hc : classifyOp o with
      | programUpsert =>
          have h1 : groupOfBatch (o :: rest) OpGroup.programUpsert =
              o :: groupOfBatch rest OpGroup.programUpsert := by
            simp [groupOfBatch, List.filter_cons, hc]
          have h2 : groupOfBatch (o :: rest) OpGroup.executionUpsert =
              groupOfBatch rest OpGroup.executionUpsert := by
            simp [groupOfBatch, List.filter_cons, hc]
          have h3 : groupOfBatch (o :: rest) OpGroup.feedbackUpdate =
              groupOfBatch rest OpGroup.feedbackUpdate := by
            simp [groupOfBatch, List.filter_cons, hc]
          have h4 : groupOfBatch (o :: rest) OpGroup.deleteOp =
              groupOfBatch rest OpGroup.deleteOp := by
            simp [groupOfBatch, List.filter_cons, hc]
          rw [h1, h2, h3, h4]
          simpa using ih.cons o
      | executionUpsert =>
          have h1 : groupOfBatch (o :: rest) OpGroup.programUpsert =
              groupOfBatch rest OpGroup.programUpsert := by
            simp [groupOfBatch, List.filter_cons, hc]
          have h2 : groupOfBatch (o :: rest) OpGroup.executionUpsert =
              o :: groupOfBatch rest OpGroup.executionUpsert := by
            simp [groupOfBatch, List.filter_cons, hc]
          have h3 : groupOfBatch (o :: rest) OpGroup.feedbackUpdate =
              groupOfBatch rest OpGroup.feedbackUpdate := by
            simp [groupOfBatch, List.filter_cons, hc]
          have h4 : groupOfBatch (o :: rest) OpGroup.deleteOp =
              groupOfBatch rest OpGroup.deleteOp := by
            simp [groupOfBatch, List.filter_cons, hc]
          rw [h1, h2, h3, h4]
          rw [show groupOfBatch rest OpGroup.programUpsert ++
              (o :: groupOfBatch rest OpGroup.executionUpsert) ++
              groupOfBatch rest OpGroup.feedbackUpdate ++
              groupOfBatch rest OpGroup.deleteOp =
            groupOfBatch rest OpGroup.programUpsert ++
              o :: (groupOfBatch rest OpGroup.executionUpsert ++
                groupOfBatch rest OpGroup.feedbackUpdate ++
                groupOfBatch rest OpGroup.deleteOp) from by simp]
          refine List.perm_middle.trans (List.Perm.cons o ?_)
          simpa [List.append_assoc] using ih
      | feedbackUpdate =>
          have h1 : groupOfBatch (o :: rest) OpGroup.programUpsert =
              groupOfBatch rest OpGroup.programUpsert := by
            simp [groupOfBatch, List.filter_cons, hc]
          have h2 : groupOfBatch (o :: rest) OpGroup.executionUpsert =
              groupOfBatch rest OpGroup.executionUpsert := by
            simp [groupOfBatch, List.filter_cons, hc]
          have h3 : groupOfBatch (o :: rest) OpGroup.feedbackUpdate =
              o :: groupOfBatch rest OpGroup.feedbackUpdate := by
            simp [groupOfBatch, List.filter_cons, hc]
          have h4 : groupOfBatch (o :: rest) OpGroup.deleteOp =
              groupOfBatch rest OpGroup.deleteOp := by
            simp [groupOfBatch, List.filter_cons, hc]
          rw [h1, h2, h3, h4]
          rw [show groupOfBatch rest OpGroup.programUpsert ++
              groupOfBatch rest OpGroup.executionUpsert ++
              (o :: groupOfBatch rest OpGroup.feedbackUpdate) ++
              groupOfBatch rest OpGroup.deleteOp =
            (groupOfBatch rest OpGroup.programUpsert ++
              groupOfBatch rest OpGroup.executionUpsert) ++
              o :: (groupOfBatch rest OpGroup.feedbackUpdate ++
                groupOfBatch rest OpGroup.deleteOp) from by simp]
          refine List.perm_middle.trans (List.Perm.cons o ?_)
          simpa [List.append_assoc] using ih
      | deleteOp =>
          have h1 : groupOfBatch (o :: rest) OpGroup.programUpsert =
              groupOfBatch rest OpGroup.programUpsert := by
            simp [groupOfBatch, List.filter_cons, hc]
          have h2 : groupOfBatch (o :: rest) OpGroup.executionUpsert =
              groupOfBatch rest OpGroup.executionUpsert := by
            simp [groupOfBatch, List.filter_cons, hc]
          have h3 : groupOfBatch (o :: rest) OpGroup.feedbackUpdate =
              groupOfBatch rest OpGroup.feedbackUpdate := by
            simp [groupOfBatch, List.filter_cons, hc]
          have h4 : groupOfBatch (o :: rest) OpGroup.deleteOp =
              o :: groupOfBatch rest OpGroup.deleteOp := by
            simp [groupOfBatch, List.filter_cons, hc]
          rw [h1, h2, h3, h4]
          rw [show groupOfBatch rest OpGroup.programUpsert ++
              groupOfBatch rest OpGroup.executionUpsert ++
              groupOfBatch rest OpGroup.feedbackUpdate ++
              (o :: groupOfBatch rest OpGroup.deleteOp) =
            (groupOfBatch rest OpGroup.programUpsert ++
              groupOfBatch rest OpGroup.executionUpsert ++
              groupOfBatch rest OpGroup.feedbackUpdate) ++
              o :: groupOfBatch rest OpGroup.deleteOp from by simp]
          refine List.perm_middle.trans (List.Perm.cons o ?_)
          simpa [List.append_assoc] using ih

/-- Helper: the bulk-call sequence keeps the non-empty groups, with their
rows, in the fixed canonical order. -/
theorem processBatchCalls_eq (batch : List Operation) :
    processBatchCalls batch =
      ([(OpGroup.programUpsert, groupOfBatch batch OpGroup.programUpsert),
        (OpGroup.executionUpsert, groupOfBatch batch OpGroup.executionUpsert),
        (OpGroup.feedbackUpdate, groupOfBatch batch OpGroup.feedbackUpdate),
        (OpGroup.deleteOp, groupOfBatch batch OpGroup.deleteOp)].filter
          (fun pr => !pr.2.isEmpty)) := by
  unfold processBatchCalls
  rw [partitionBatch_eq_groups]
  by_cases h1 : groupOfBatch batch OpGroup.programUpsert = [] <;>
  by_cases h2 : groupOfBatch batch OpGroup.executionUpsert = [] <;>
  by_cases h3 : groupOfBatch batch OpGroup.feedbackUpdate = [] <;>
  by_cases h4 : groupOfBatch batch OpGroup.deleteOp = [] <;>
    simp [h1, h2, h3, h4, List.filter_cons, List.isEmpty_iff]

/-- Claim C3: `process_batch` partitions a batch into four disjoint groups
whose union is the whole batch (nothing is lost or duplicated: their
concatenation is a permutation of the batch); each group contains only
operations of its kind (so the groups are pairwise disjoint); each group
is a sublist of the batch (original relative order preserved); and the
bulk calls issued are exactly the non-empty groups in the fixed order
programs/fuzzers, executions, feedback updates, deletes, each with its
group's rows. -/
theorem process_batch_partition :
    ∀ (batch : List Operation),
      ((partitionBatch batch).1 ++ (partitionBatch batch).2.1 ++
          (partitionBatch batch).2.2.1 ++ (partitionBatch batch).2.2.2).Perm
        batch ∧
      List.Sublist (partitionBatch batch).1 batch ∧
      List.Sublist (partitionBatch batch).2.1 batch ∧
      List.Sublist (partitionBatch batch).2.2.1 batch ∧
      List.Sublist (partitionBatch batch).2.2.2 batch ∧
      (∀ o, o ∈ (partitionBatch batch).1 →
        classifyOp o = OpGroup.programUpsert) ∧
      (∀ o, o ∈ (partitionBatch batch).2.1 →
        classifyOp o = OpGroup.executionUpsert) ∧
      (∀ o, o ∈ (partitionBatch batch).2.2.1 →
        classifyOp o = OpGroup.feedbackUpdate) ∧
      (∀ o, o ∈ (partitionBatch batch).2.2.2 →
        classifyOp o = OpGroup.deleteOp) ∧
      processBatchCalls batch =
        ([(OpGroup.programUpsert, groupOfBatch batch OpGroup.programUpsert),
          (OpGroup.executionUpsert, groupOfBatch batch OpGroup.executionUpsert),
          (OpGroup.feedbackUpdate, groupOfBatch batch OpGroup.feedbackUpdate),
          (OpGroup.deleteOp, groupOfBatch batch OpGroup.deleteOp)].filter
            (fun pr => !pr.2.isEmpty)) := by
  intro batch
  rw [partitionBatch_eq_groups]
  refine ⟨groups_perm batch, List.filter_sublist _, List.filter_sublist _,
    List.filter_sublist _, List.filter_sublist _, ?_, ?_, ?_, ?_,
    processBatchCalls_eq batch⟩ <;>
  · intro o ho
    simp only [groupOfBatch, List.mem_filter, decide_eq_true_eq] at ho
    exact ho.2

/-- A feedback-update operation. -/
def feedbackOpSample : Operation :=
  decodeMessage "4-4" [("op", "update_feedback"), ("program_base64", "AQID")]

/-- An operation that the partition files under the program-upsert group
(empty `execution_type_id`). -/
def programPathOp : Operation := decodeMessage "2-3" emptyEtidMsgData

/-- A batch with one operation of each of the four groups. -/
def mixedBatch : List Operation :=
  [sampleOp, sampleDelOp, feedbackOpSample, programPathOp]

/-- Witness for C3 at a concrete four-kind batch, discharging two of the
membership hypotheses by evaluation. -/
theorem process_batch_partition_witness :
    ((partitionBatch mixedBatch).1 ++ (partitionBatch mixedBatch).2.1 ++
        (partitionBatch mixedBatch).2.2.1 ++
        (partitionBatch mixedBatch).2.2.2).Perm mixedBatch ∧
    classifyOp sampleOp = OpGroup.executionUpsert ∧
    classifyOp sampleDelOp = OpGroup.deleteOp := by
  have h := process_batch_partition mixedBatch
  exact ⟨h.1, h.2.2.2.2.2.2.1 sampleOp (by decide),
    h.2.2.2.2.2.2.2.2.1 sampleDelOp (by decide)⟩

/-- Witness for C9: at a concrete flush (age budget exhausted), an
always-failing worker and an always-succeeding worker leave the
accumulator in the identical next state. -/
theorem flush_failure_swallowed_witness :
    (accStepTry (fun _ => Except.error "db down") ⟨[sampleOp], 0⟩ none 120).1 =
      (accStepTry (fun _ => Except.ok ()) ⟨[sampleOp], 0⟩ none 120).1 :=
  (flush_failure_swallowed (fun _ => Except.error "db down")
    (fun _ => Except.ok ()) ⟨[sampleOp], 0⟩ none 120 []).1

end VrigSync
